import Mathlib

/-!
Verification development for the contig-graph engine (`src/src/idba/contig_graph.h`).

The data model is a shallow embedding of the C++ class `ContigGraph` together
with the value types it manipulates.  Bases are numbers 0..3 (A, C, G, T); a
sequence is a list of bases; a vertex owns a contig plus a 4-bit out-edge set
and a 4-bit in-edge set; a vertex adaptor is a (vertex identity, orientation)
pair viewing the vertex as if read on a chosen strand; the graph owns the
vertex collection, the begin-k-mer index, the k-mer length and a (lazily
maintained) edge counter.  C++ methods that mutate the graph through adaptor
references become explicit state transformers `ContigGraph → ContigGraph`.
-/

/-- A nucleotide base, stored as 0..3 exactly as the packed C++ sequences do. -/
abbrev Base := Fin 4

/-- Complement of a base: the C++ sources write it as `3 - x`. -/
def Base.comp (b : Base) : Base := ⟨3 - b.val, by omega⟩

/-- Reverse complement of a base sequence (reverse the order, complement each
base), as `Sequence::ReverseComplement` does. -/
def revComp (s : List Base) : List Base := s.reverse.map Base.comp

/-- Lexicographic comparison on packed base sequences, used only to pick the
canonical representative of a k-mer. -/
def seqLe : List Base → List Base → Bool
  | [], _ => true
  | _ :: _, [] => false
  | a :: as, b :: bs => if a.val < b.val then true else if b.val < a.val then false else seqLe as bs

/-- Modelled from the spec: `IdbaKmer::unique_format` (k-mer primitive, not
under `src/`) returns the canonical representative chosen between a k-mer and
its reverse complement. -/
def uniqueFormat (q : List Base) : List Base := if seqLe q (revComp q) then q else revComp q

/-- Modelled from the spec: `IdbaKmer::ShiftAppend` (k-mer primitive, not under
`src/`) slides the k-window one base: drop the first base, append the new one. -/
def shiftAppend (q : List Base) (x : Base) : List Base := q.drop 1 ++ [x]

/-- `Sequence::IsPalindrome` / `IdbaKmer::IsPalindrome`: a sequence equal to
its own reverse complement. -/
def isPalindromeSeq (s : List Base) : Bool := decide (s = revComp s)

/-- Modelled from the spec: `ContigInfo` (external value type, not under
`src/`) carries per-contig statistics; the graph core only stores and returns
it, so one opaque coverage field suffices. -/
structure ContigInfo where
  coverage : Nat
deriving DecidableEq, Repr, Inhabited

/-- A contig-graph vertex: one contig sequence, 4-bit out-edge and in-edge
sets (one bit per possible next/previous base), its statistics and the dead
status flag. -/
structure ContigGraphVertex where
  contig : List Base
  outEdges : Fin 4 → Bool
  inEdges : Fin 4 → Bool
  info : ContigInfo
  dead : Bool

instance : Inhabited ContigGraphVertex :=
  ⟨⟨[], fun _ => false, fun _ => false, default, false⟩⟩

/-- A strand-oriented handle on a vertex: vertex identity (`none` is the null
adaptor, i.e. a `NULL` vertex pointer) plus the orientation bit. -/
structure ContigGraphVertexAdaptor where
  vid : Option Nat
  isReverse : Bool
deriving DecidableEq, Repr, Inhabited

/-- The default-constructed (null) adaptor. -/
def nullAdaptor : ContigGraphVertexAdaptor := ⟨none, false⟩

/-- `ContigGraphVertexAdaptor::ReverseComplement`: flip the orientation bit. -/
def flipAdaptor (a : ContigGraphVertexAdaptor) : ContigGraphVertexAdaptor :=
  ⟨a.vid, !a.isReverse⟩

/-- `ContigGraphVertexAdaptor::is_null`. -/
def ContigGraphVertexAdaptor.isNull (a : ContigGraphVertexAdaptor) : Bool := a.vid.isNone

/-- The contig graph state: k-mer length, vertex collection, begin-k-mer
index (canonical k-mer to vertex identity) and the edge counter. -/
structure ContigGraph where
  kmerSize : Nat
  vertices : List ContigGraphVertex
  beginKmerMap : List (List Base × Nat)
  numEdges : Nat

/-- Fetch a vertex by identity (out-of-range reads return the default vertex,
standing in for the C++ undefined behaviour in a total way). -/
def getVertex (g : ContigGraph) (i : Nat) : ContigGraphVertex := g.vertices.getD i default

/-- The stored edge set of vertex `i` on side `side` (`false` = the out-edge
set, `true` = the in-edge set). -/
def storageOut (g : ContigGraph) (i : Nat) (side : Bool) : Fin 4 → Bool :=
  if side then (getVertex g i).inEdges else (getVertex g i).outEdges

/-- `ContigGraphVertexAdaptor::contig`: the vertex contig, reverse-complemented
when the adaptor is flipped. -/
def adaptorContig (g : ContigGraph) (a : ContigGraphVertexAdaptor) : List Base :=
  match a.vid with
  | none => []
  | some i => if a.isReverse then revComp (getVertex g i).contig else (getVertex g i).contig

/-- `ContigGraphVertexAdaptor::contig_size`. -/
def adaptorContigSize (g : ContigGraph) (a : ContigGraphVertexAdaptor) : Nat :=
  (adaptorContig g a).length

/-- `ContigGraphVertexAdaptor::out_edges`: the stored out-edge set under the
current orientation (the in-edge set when flipped). -/
def adaptorOutEdges (g : ContigGraph) (a : ContigGraphVertexAdaptor) : Fin 4 → Bool :=
  match a.vid with
  | none => fun _ => false
  | some i => storageOut g i a.isReverse

/-- `ContigGraphVertexAdaptor::in_edges`: the stored in-edge set under the
current orientation (the out-edge set when flipped). -/
def adaptorInEdges (g : ContigGraph) (a : ContigGraphVertexAdaptor) : Fin 4 → Bool :=
  match a.vid with
  | none => fun _ => false
  | some i => storageOut g i (!a.isReverse)

/-- `ContigGraphVertexAdaptor::begin_kmer`: the first k bases under the
current orientation. -/
def beginKmerOf (g : ContigGraph) (a : ContigGraphVertexAdaptor) : List Base :=
  (adaptorContig g a).take g.kmerSize

/-- `ContigGraphVertexAdaptor::end_kmer`: the last k bases under the current
orientation. -/
def endKmerOf (g : ContigGraph) (a : ContigGraphVertexAdaptor) : List Base :=
  (adaptorContig g a).drop ((adaptorContig g a).length - g.kmerSize)

/-- `BitEdges::size`: number of set bits in a 4-bit edge set. -/
def edgeSetSize (es : Fin 4 → Bool) : Nat := (List.finRange 4).countP fun x => es x

/-- `BitEdges::operator== 0`: the edge set is empty. -/
def edgeSetIsZero (es : Fin 4 → Bool) : Bool := decide (∀ x : Fin 4, es x = false)

/-- Modelled from the spec: `bit_operation::BitToIndex` (`bit_operation.h` is
not under `src/`); for the singleton edge sets it is applied to, it returns
the index of the unique set bit (here: the least set bit). -/
def bitToIndex (es : Fin 4 → Bool) : Fin 4 :=
  if es 0 then 0 else if es 1 then 1 else if es 2 then 2 else 3

/-- Update the edge set of vertex `i` on side `side` by `f` (the primitive
behind every `out_edges().Add/Remove` call made through an adaptor). -/
def bumpEdge (g : ContigGraph) (i : Nat) (side : Bool) (f : (Fin 4 → Bool) → Fin 4 → Bool) :
    ContigGraph :=
  { g with
    vertices := g.vertices.set i
      (let v := g.vertices.getD i default
       if side then { v with inEdges := f v.inEdges } else { v with outEdges := f v.outEdges }) }

/-- `a.out_edges().Add(b)` as a state transformer: set bit `b` in the edge set
that adaptor `a` views as its out-edge set. -/
def adaptorAddOut (g : ContigGraph) (a : ContigGraphVertexAdaptor) (b : Base) : ContigGraph :=
  match a.vid with
  | none => g
  | some i => bumpEdge g i a.isReverse fun es => fun y => if y = b then true else es y

/-- `a.out_edges().Remove(b)` as a state transformer: clear bit `b` in the
edge set that adaptor `a` views as its out-edge set. -/
def adaptorRemoveOut (g : ContigGraph) (a : ContigGraphVertexAdaptor) (b : Base) : ContigGraph :=
  match a.vid with
  | none => g
  | some i => bumpEdge g i a.isReverse fun es => fun y => if y = b then false else es y

/-- Association-list lookup standing for `HashMap::find`. -/
def mapFind (m : List (List Base × Nat)) (key : List Base) : Option Nat :=
  (m.find? fun p => decide (p.1 = key)).map Prod.snd

/-- `ContigGraph::FindVertexAdaptorByBeginIdbaKmer`: canonicalize the query,
look it up in the begin-k-mer index, and return the mapped vertex in whichever
orientation has a begin k-mer equal to the (non-canonical) query; the null
adaptor otherwise. -/
def FindVertexAdaptorByBeginIdbaKmer (g : ContigGraph) (beginKmer : List Base) :
    ContigGraphVertexAdaptor :=
  match mapFind g.beginKmerMap (uniqueFormat beginKmer) with
  | none => nullAdaptor
  | some i =>
    if beginKmerOf g ⟨some i, false⟩ = beginKmer then ⟨some i, false⟩
    else if beginKmerOf g ⟨some i, true⟩ = beginKmer then ⟨some i, true⟩
    else nullAdaptor

/-- `ContigGraph::GetNeighbor`: shift-append base `x` to the end k-mer of
`current` and resolve the result through the begin-k-mer index. -/
def GetNeighbor (g : ContigGraph) (current : ContigGraphVertexAdaptor) (x : Base) :
    ContigGraphVertexAdaptor :=
  FindVertexAdaptorByBeginIdbaKmer g (shiftAppend (endKmerOf g current) x)

/-- `ContigGraph::AddEdge`: set the out-edge bit on `frm` for the base at
position k-1 of `to`'s contig; then flip both adaptors, swap them, and repeat,
recording the mirror edge between the two reverse-complement views. -/
def AddEdge (g : ContigGraph) (frm dst : ContigGraphVertexAdaptor) : ContigGraph :=
  let g1 := adaptorAddOut g frm ((adaptorContig g dst).getD (g.kmerSize - 1) 0)
  adaptorAddOut g1 (flipAdaptor dst) ((adaptorContig g1 (flipAdaptor frm)).getD (g1.kmerSize - 1) 0)

/-- `ContigGraph::RemoveEdge`: clear out-edge bit `x` on `current`, locate the
neighbor via `GetNeighbor`, flip it, and clear on the flipped neighbor the
out-edge bit for base `3 - current.contig()[0]`. -/
def RemoveEdge (g : ContigGraph) (current : ContigGraphVertexAdaptor) (x : Base) : ContigGraph :=
  let g1 := adaptorRemoveOut g current x
  let next := GetNeighbor g1 current x
  adaptorRemoveOut g1 (flipAdaptor next) (Base.comp ((adaptorContig g1 current).getD 0 0))

/-- `ContigGraph::GetNextVertexAdaptor` (out-parameter passed and returned
explicitly): fail unless `current` has exactly one out-edge; resolve the
unique neighbor; succeed when that neighbor has exactly one in-edge and is not
a palindromic contig of length exactly k. -/
def GetNextVertexAdaptor (g : ContigGraph) (current next0 : ContigGraphVertexAdaptor) :
    Bool × ContigGraphVertexAdaptor :=
  if edgeSetSize (adaptorOutEdges g current) ≠ 1 then (false, next0)
  else
    let next := GetNeighbor g current (bitToIndex (adaptorOutEdges g current))
    (decide (edgeSetSize (adaptorInEdges g next) = 1) &&
      !(decide (adaptorContigSize g next = g.kmerSize) && isPalindromeSeq (adaptorContig g next)),
     next)

/-- `ContigGraph::IsPalindromeLoop`: whether `next` refers to the same vertex
as the last adaptor of the path. -/
def IsPalindromeLoop (path : List ContigGraphVertexAdaptor)
    (next : ContigGraphVertexAdaptor) : Bool :=
  decide ((path.getLastD nullAdaptor).vid = next.vid)

/-- Accumulator loop of `ContigGraph::GetBeginVertexAdaptor` and
`GetEndVertexAdaptor`: scan the component; on the first adaptor whose selected
edge set is empty remember it, on a second one return the null adaptor
immediately. -/
def scanUniqueZero (sel : ContigGraphVertexAdaptor → Fin 4 → Bool)
    (acc : ContigGraphVertexAdaptor) :
    List ContigGraphVertexAdaptor → ContigGraphVertexAdaptor
  | [] => acc
  | a :: rest =>
    if edgeSetIsZero (sel a) then
      if acc.isNull then scanUniqueZero sel a rest else nullAdaptor
    else scanUniqueZero sel acc rest

/-- `ContigGraph::GetBeginVertexAdaptor`: the unique adaptor of the component
with an empty in-edge set, or the null adaptor when there are two or more. -/
def GetBeginVertexAdaptor (g : ContigGraph) (component : List ContigGraphVertexAdaptor) :
    ContigGraphVertexAdaptor :=
  scanUniqueZero (adaptorInEdges g) nullAdaptor component

/-- `ContigGraph::GetEndVertexAdaptor`: the unique adaptor of the component
with an empty out-edge set, or the null adaptor when there are two or more. -/
def GetEndVertexAdaptor (g : ContigGraph) (component : List ContigGraphVertexAdaptor) :
    ContigGraphVertexAdaptor :=
  scanUniqueZero (adaptorOutEdges g) nullAdaptor component

/-- Modelled from the spec: `ContigGraph::BuildBeginIdbaKmerMap` is declared
but not defined under `src/`; per the spec the index holds, for every vertex,
one entry from the canonical form of its forward-orientation begin k-mer to
its identity. -/
def BuildBeginIdbaKmerMap (g : ContigGraph) : ContigGraph :=
  { g with
    beginKmerMap :=
      (List.range g.vertices.length).map fun i =>
        (uniqueFormat ((getVertex g i).contig.take g.kmerSize), i) }

/-- One probe step of edge derivation: if base `x` extends adaptor `a` to a
vertex that begins with the shifted k-mer, record the edge via `AddEdge`. -/
def addEdgeProbe (g : ContigGraph) (a : ContigGraphVertexAdaptor) (x : Base) : ContigGraph :=
  let nb := GetNeighbor g a x
  if nb.isNull then g else AddEdge g a nb

/-- Modelled from the spec: edge derivation inside `ContigGraph::Initialize`
(not under `src/`): for every vertex and every of the 4 possible next bases,
probe whether a vertex begins with the resulting shifted k-mer and add the
edge if so. -/
def deriveEdges (g : ContigGraph) : ContigGraph :=
  (List.range g.vertices.length).foldl
    (fun acc i => (List.finRange 4).foldl (fun acc2 x => addEdgeProbe acc2 ⟨some i, false⟩ x) acc)
    g

/-- Modelled from the spec: `ContigGraph::Initialize` is declared but not
defined under `src/`; per the spec it clears the state, creates one live
vertex per (sequence, info) pair, builds the begin-k-mer index, and derives
all edges by probing. -/
def Initialize (k : Nat) (contigs : List (List Base)) (contigInfos : List ContigInfo) :
    ContigGraph :=
  let vs := (contigs.zip contigInfos).map fun p =>
    { contig := p.1, outEdges := fun _ => false, inEdges := fun _ => false,
      info := p.2, dead := false : ContigGraphVertex }
  deriveEdges (BuildBeginIdbaKmerMap { kmerSize := k, vertices := vs, beginKmerMap := [], numEdges := 0 })

/-- Modelled from the spec: `ContigGraph::Assemble` is declared but not
defined under `src/`; per the spec it converts all surviving, non-dead
vertices back into (sequence, info) pairs. -/
def Assemble (g : ContigGraph) : List (List Base × ContigInfo) :=
  (g.vertices.filter fun v => !v.dead).map fun v => (v.contig, v.info)

/-- All (vertex identity, orientation) adaptors over the live collection. -/
def allAdaptors (g : ContigGraph) : List ContigGraphVertexAdaptor :=
  (List.range g.vertices.length).flatMap fun i => [⟨some i, false⟩, ⟨some i, true⟩]

/-- The strand-mirror in-edge bit that `AddEdge` records on the neighbor for
an out-edge leaving `a`: the complement of the first base of `a`'s end k-mer
(base at position `length - k` of `a`'s contig). -/
def mirrorBitOf (g : ContigGraph) (a : ContigGraphVertexAdaptor) : Base :=
  Base.comp ((adaptorContig g a).getD ((adaptorContig g a).length - g.kmerSize) 0)

/-- The strand-symmetry invariant: every out-edge bit set on any adaptor whose
neighbor resolves has the mirror in-edge bit set on that neighbor. -/
def StrandSymmetric (g : ContigGraph) : Prop :=
  ∀ a ∈ allAdaptors g, ∀ x : Fin 4, adaptorOutEdges g a x = true →
    (GetNeighbor g a x).isNull = false →
    adaptorInEdges g (GetNeighbor g a x) (mirrorBitOf g a) = true

instance (g : ContigGraph) : Decidable (StrandSymmetric g) := by
  unfold StrandSymmetric; infer_instance

/-- Well-formedness of the begin-k-mer index: every stored identity is in
range of the vertex collection. -/
def mapWF (g : ContigGraph) : Prop := ∀ p ∈ g.beginKmerMap, p.2 < g.vertices.length

instance (g : ContigGraph) : Decidable (mapWF g) := by
  unfold mapWF; infer_instance

/-- A non-null adaptor whose vertex identity is in range. -/
def validA (g : ContigGraph) (a : ContigGraphVertexAdaptor) : Bool :=
  match a.vid with
  | none => false
  | some i => decide (i < g.vertices.length)

/-- Every live contig is at least k bases long. -/
def lengthsOK (g : ContigGraph) : Prop := ∀ v ∈ g.vertices, g.kmerSize ≤ v.contig.length

instance (g : ContigGraph) : Decidable (lengthsOK g) := by
  unfold lengthsOK; infer_instance

/-- No two live adaptors share an end k-mer (equivalently, begin k-mers are
unambiguous between strands and vertices). -/
def endInjective (g : ContigGraph) : Prop :=
  ∀ a ∈ allAdaptors g, ∀ b ∈ allAdaptors g, endKmerOf g a = endKmerOf g b → a = b

instance (g : ContigGraph) : Decidable (endInjective g) := by
  unfold endInjective; infer_instance

/-- The out-edge bit `AddEdge g frm dst` sets on `frm`: the base at position
k-1 of `dst`'s contig. -/
def addBit1 (g : ContigGraph) (dst : ContigGraphVertexAdaptor) : Base :=
  (adaptorContig g dst).getD (g.kmerSize - 1) 0

/-- The out-edge bit `AddEdge g frm dst` sets on the flipped `dst`: the base
at position k-1 of the flipped `frm`'s contig. -/
def addBit2 (g : ContigGraph) (frm : ContigGraphVertexAdaptor) : Base :=
  (adaptorContig g (flipAdaptor frm)).getD (g.kmerSize - 1) 0

/-- The bit `RemoveEdge` clears on the flipped neighbor: the complement of
the first base of `current`'s contig. -/
def removeMirrorBit (g : ContigGraph) (current : ContigGraphVertexAdaptor) : Base :=
  Base.comp ((adaptorContig g current).getD 0 0)

/-- Two sequences are equal up to strand choice. -/
def rcEquiv (s t : List Base) : Prop := t = s ∨ t = revComp s

/-- The edge-independent payload of a vertex, used to state that edge
maintenance touches nothing else. -/
def vertexPayload (v : ContigGraphVertex) : List Base × ContigInfo × Bool :=
  (v.contig, v.info, v.dead)

/-- A fresh live vertex with the given contig and no edges. -/
def mkV (c : List Base) : ContigGraphVertex :=
  { contig := c, outEdges := fun _ => false, inEdges := fun _ => false,
    info := default, dead := false }

/-- Forward-orientation adaptor on vertex `i`. -/
def aF (i : Nat) : ContigGraphVertexAdaptor := ⟨some i, false⟩

/-- Reverse-orientation adaptor on vertex `i`. -/
def aR (i : Nat) : ContigGraphVertexAdaptor := ⟨some i, true⟩

/-- Concrete edge-free graph (k = 3) with contigs ACAA, AAC, AAA and its
begin-k-mer index. -/
def exG0 : ContigGraph :=
  BuildBeginIdbaKmerMap
    { kmerSize := 3,
      vertices := [mkV [0, 1, 0, 0], mkV [0, 0, 1], mkV [0, 0, 0]],
      beginKmerMap := [], numEdges := 0 }

/-- `exG0` after recording the two real edges ACAA to AAC and AAA to AAC via
`AddEdge`. -/
def exG1 : ContigGraph := AddEdge (AddEdge exG0 (aF 0) (aF 1)) (aF 2) (aF 1)

/-- Concrete two-vertex graph (k = 3, contigs AAC and ACG, both of length
exactly k) with its one real edge recorded via `AddEdge`. -/
def gW : ContigGraph :=
  AddEdge
    (BuildBeginIdbaKmerMap
      { kmerSize := 3,
        vertices := [mkV [0, 0, 1], mkV [0, 1, 2]],
        beginKmerMap := [], numEdges := 0 })
    (aF 0) (aF 1)

/-- Concrete graph (k = 2) whose second vertex has a contig longer than k,
separating position k-1 from the last position. -/
def gC2 : ContigGraph :=
  { kmerSize := 2, vertices := [mkV [0, 1], mkV [0, 1, 2]],
    beginKmerMap := [], numEdges := 0 }

/-- Two graph states that differ at most in edge bits: same k, same index,
and the same edge-independent payload of every vertex. -/
def EdgesOnlyUpdate (g g' : ContigGraph) : Prop :=
  g'.kmerSize = g.kmerSize ∧ g'.beginKmerMap = g.beginKmerMap ∧
    g'.vertices.map vertexPayload = g.vertices.map vertexPayload

/-!  Theorems.  First a layer of helper lemmas about reverse complement,
about the edge-update primitives and about index resolution; then one theorem
(plus witness or counterexample) per claim.  -/

theorem Base.comp_comp (b : Base) : Base.comp (Base.comp b) = b := by
  apply Fin.ext
  simp only [Base.comp]
  omega

theorem length_revComp (s : List Base) : (revComp s).length = s.length := by
  simp [revComp]

theorem revComp_revComp (s : List Base) : revComp (revComp s) = s := by
  have hc : Base.comp ∘ Base.comp = id := funext Base.comp_comp
  simp [revComp, List.map_reverse, List.map_map, hc]

theorem revComp_append_last (l : List Base) (x : Base) :
    revComp (l ++ [x]) = Base.comp x :: revComp l := by
  simp [revComp, List.reverse_append]

theorem revComp_cons (a : Base) (l : List Base) :
    revComp (a :: l) = revComp l ++ [Base.comp a] := by
  simp [revComp]

theorem getD_revComp (s : List Base) (i : Nat) (h : i < s.length) (d d' : Base) :
    (revComp s).getD i d = Base.comp (s.getD (s.length - 1 - i) d') := by
  have h2 : s.length - 1 - i < s.length := by omega
  rw [List.getD_eq_getElem?_getD, List.getD_eq_getElem?_getD]
  unfold revComp
  rw [List.getElem?_map, List.getElem?_reverse (by simpa using h),
    List.getElem?_eq_getElem h2]
  simp

theorem take_revComp (s : List Base) (k : Nat) (h : k ≤ s.length) :
    (revComp s).take k = revComp (s.drop (s.length - k)) := by
  unfold revComp
  rw [← List.map_take, List.reverse_drop]
  congr 2
  omega

theorem drop_revComp (s : List Base) (k : Nat) :
    (revComp s).drop (s.length - k) = revComp (s.take k) := by
  unfold revComp
  rw [← List.map_drop, List.reverse_take]

theorem append_singleton_inj {l1 l2 : List Base} {u v : Base}
    (h : l1 ++ [u] = l2 ++ [v]) : l1 = l2 ∧ u = v := by
  have h2 := congrArg List.reverse h
  simp only [List.reverse_append, List.reverse_cons, List.reverse_nil,
    List.nil_append, List.singleton_append, List.cons.injEq] at h2
  exact ⟨by simpa using congrArg List.reverse h2.2, h2.1⟩

theorem cons_getD_drop {l : List Base} {k : Nat} (hl : l.length = k) (hk : 1 ≤ k) (d : Base) :
    l = l.getD 0 d :: l.drop 1 := by
  cases l with
  | nil => simp at hl; omega
  | cons a t => rfl

theorem getD_map {α β : Type} (f : α → β) (l : List α) (n : Nat) (d : α) :
    (l.map f).getD n (f d) = f (l.getD n d) := by
  rw [List.getD_eq_getElem?_getD, List.getD_eq_getElem?_getD, List.getElem?_map]
  cases l[n]? <;> rfl

theorem payload_map_bumpEdge (g : ContigGraph) (i : Nat) (side : Bool)
    (f : (Fin 4 → Bool) → Fin 4 → Bool) :
    (bumpEdge g i side f).vertices.map vertexPayload = g.vertices.map vertexPayload := by
  unfold bumpEdge
  apply List.ext_getElem?
  intro n
  rw [List.getElem?_map, List.getElem?_map, List.getElem?_set]
  by_cases hin : i = n
  · subst hin
    by_cases hlt : i < g.vertices.length
    · simp only [hlt, if_true, if_pos rfl]
      rw [List.getElem?_eq_getElem hlt]
      cases side <;> simp [vertexPayload, List.getElem?_eq_getElem hlt]
    · simp only [if_pos rfl, hlt, if_false]
      rw [List.getElem?_eq_none (by omega)]
      rfl
  · simp [hin]

theorem edgesOnly_refl (g : ContigGraph) : EdgesOnlyUpdate g g := ⟨rfl, rfl, rfl⟩

theorem edgesOnly_trans {g g' g'' : ContigGraph} (h : EdgesOnlyUpdate g g')
    (h' : EdgesOnlyUpdate g' g'') : EdgesOnlyUpdate g g'' :=
  ⟨h'.1.trans h.1, h'.2.1.trans h.2.1, h'.2.2.trans h.2.2⟩

theorem edgesOnly_bumpEdge (g : ContigGraph) (i : Nat) (side : Bool)
    (f : (Fin 4 → Bool) → Fin 4 → Bool) : EdgesOnlyUpdate g (bumpEdge g i side f) :=
  ⟨rfl, rfl, payload_map_bumpEdge g i side f⟩

theorem edgesOnly_adaptorAddOut (g : ContigGraph) (a : ContigGraphVertexAdaptor) (b : Base) :
    EdgesOnlyUpdate g (adaptorAddOut g a b) := by
  unfold adaptorAddOut
  cases a.vid with
  | none => exact edgesOnly_refl g
  | some i => exact edgesOnly_bumpEdge g i a.isReverse _

theorem edgesOnly_adaptorRemoveOut (g : ContigGraph) (a : ContigGraphVertexAdaptor) (b : Base) :
    EdgesOnlyUpdate g (adaptorRemoveOut g a b) := by
  unfold adaptorRemoveOut
  cases a.vid with
  | none => exact edgesOnly_refl g
  | some i => exact edgesOnly_bumpEdge g i a.isReverse _

theorem edgesOnly_AddEdge (g : ContigGraph) (frm dst : ContigGraphVertexAdaptor) :
    EdgesOnlyUpdate g (AddEdge g frm dst) :=
  edgesOnly_trans (edgesOnly_adaptorAddOut g frm _) (edgesOnly_adaptorAddOut _ _ _)

theorem edgesOnly_RemoveEdge (g : ContigGraph) (c : ContigGraphVertexAdaptor) (x : Base) :
    EdgesOnlyUpdate g (RemoveEdge g c x) :=
  edgesOnly_trans (edgesOnly_adaptorRemoveOut g c x) (edgesOnly_adaptorRemoveOut _ _ _)

theorem vertices_length_eq {g g' : ContigGraph} (h : EdgesOnlyUpdate g g') :
    g'.vertices.length = g.vertices.length := by
  have := congrArg List.length h.2.2
  simpa using this

theorem payload_getVertex_eq {g g' : ContigGraph} (h : EdgesOnlyUpdate g g') (j : Nat) :
    vertexPayload (getVertex g' j) = vertexPayload (getVertex g j) := by
  unfold getVertex
  have hd : vertexPayload (default : ContigGraphVertex) = vertexPayload default := rfl
  calc vertexPayload (g'.vertices.getD j default)
      = (g'.vertices.map vertexPayload).getD j (vertexPayload default) := (getD_map _ _ _ _).symm
    _ = (g.vertices.map vertexPayload).getD j (vertexPayload default) := by rw [h.2.2]
    _ = vertexPayload (g.vertices.getD j default) := getD_map _ _ _ _

theorem contig_getVertex_eq {g g' : ContigGraph} (h : EdgesOnlyUpdate g g') (j : Nat) :
    (getVertex g' j).contig = (getVertex g j).contig :=
  congrArg (fun p => p.1) (payload_getVertex_eq h j)

theorem adaptorContig_eq {g g' : ContigGraph} (h : EdgesOnlyUpdate g g')
    (a : ContigGraphVertexAdaptor) : adaptorContig g' a = adaptorContig g a := by
  rcases a with ⟨v, r⟩
  cases v with
  | none => rfl
  | some i => simp only [adaptorContig, contig_getVertex_eq h]

theorem beginKmerOf_eq {g g' : ContigGraph} (h : EdgesOnlyUpdate g g')
    (a : ContigGraphVertexAdaptor) : beginKmerOf g' a = beginKmerOf g a := by
  unfold beginKmerOf
  rw [adaptorContig_eq h, h.1]

theorem endKmerOf_eq {g g' : ContigGraph} (h : EdgesOnlyUpdate g g')
    (a : ContigGraphVertexAdaptor) : endKmerOf g' a = endKmerOf g a := by
  unfold endKmerOf
  rw [adaptorContig_eq h, h.1]

theorem mirrorBitOf_eq {g g' : ContigGraph} (h : EdgesOnlyUpdate g g')
    (a : ContigGraphVertexAdaptor) : mirrorBitOf g' a = mirrorBitOf g a := by
  unfold mirrorBitOf
  rw [adaptorContig_eq h, h.1]

theorem find_eq {g g' : ContigGraph} (h : EdgesOnlyUpdate g g') (q : List Base) :
    FindVertexAdaptorByBeginIdbaKmer g' q = FindVertexAdaptorByBeginIdbaKmer g q := by
  unfold FindVertexAdaptorByBeginIdbaKmer
  rw [h.2.1]
  cases mapFind g.beginKmerMap (uniqueFormat q) with
  | none => rfl
  | some i => simp only [beginKmerOf_eq h]

theorem getNeighbor_eq {g g' : ContigGraph} (h : EdgesOnlyUpdate g g')
    (c : ContigGraphVertexAdaptor) (x : Base) : GetNeighbor g' c x = GetNeighbor g c x := by
  unfold GetNeighbor
  rw [endKmerOf_eq h, find_eq h]

theorem allAdaptors_eq {g g' : ContigGraph} (h : EdgesOnlyUpdate g g') :
    allAdaptors g' = allAdaptors g := by
  unfold allAdaptors
  rw [vertices_length_eq h]

theorem validA_eq {g g' : ContigGraph} (h : EdgesOnlyUpdate g g')
    (a : ContigGraphVertexAdaptor) : validA g' a = validA g a := by
  rcases a with ⟨v, r⟩
  cases v with
  | none => rfl
  | some i => simp only [validA, vertices_length_eq h]

theorem flip_flip (a : ContigGraphVertexAdaptor) : flipAdaptor (flipAdaptor a) = a := by
  rcases a with ⟨v, r⟩
  simp [flipAdaptor]

theorem validA_flip (g : ContigGraph) (a : ContigGraphVertexAdaptor) :
    validA g (flipAdaptor a) = validA g a := by
  rcases a with ⟨v, r⟩
  cases v <;> rfl

theorem adaptorInEdges_eq_flip (g : ContigGraph) (a : ContigGraphVertexAdaptor) :
    adaptorInEdges g a = adaptorOutEdges g (flipAdaptor a) := by
  rcases a with ⟨v, r⟩
  cases v <;> rfl

theorem storageOut_bumpEdge (g : ContigGraph) (i : Nat) (side : Bool)
    (f : (Fin 4 → Bool) → Fin 4 → Bool) (j : Nat) (p : Bool) :
    storageOut (bumpEdge g i side f) j p =
      if j = i ∧ p = side ∧ i < g.vertices.length then f (storageOut g i side)
      else storageOut g j p := by
  have hget : ∀ n : Nat, getVertex (bumpEdge g i side f) n =
      if n = i ∧ i < g.vertices.length then
        (let v := getVertex g i
         if side then { v with inEdges := f v.inEdges } else { v with outEdges := f v.outEdges })
      else getVertex g n := by
    intro n
    unfold getVertex bumpEdge
    simp only
    rw [List.getD_eq_getElem?_getD, List.getElem?_set]
    by_cases hin : i = n
    · subst hin
      by_cases hlt : i < g.vertices.length
      · simp [hlt, List.getD_eq_getElem?_getD, List.getElem?_eq_getElem hlt]
      · simp [hlt, List.getD_eq_getElem?_getD, List.getElem?_eq_none (by omega : g.vertices.length ≤ i)]
    · simp [hin, Ne.symm hin, List.getD_eq_getElem?_getD]
  unfold storageOut
  rw [hget j]
  by_cases hji : j = i
  · subst hji
    by_cases hlt : j < g.vertices.length
    · simp only [hlt, and_true, true_and, if_pos rfl]
      cases p <;> cases side <;> simp
    · simp [hlt]
  · simp [hji]


theorem adaptorOutEdges_addOut (g : ContigGraph) (b : ContigGraphVertexAdaptor) (z : Base)
    (a : ContigGraphVertexAdaptor) (y : Fin 4) :
    adaptorOutEdges (adaptorAddOut g b z) a y = true ↔
      (adaptorOutEdges g a y = true ∨ (a = b ∧ y = z ∧ validA g b = true)) := by
  rcases a with ⟨va, ra⟩
  rcases b with ⟨vb, rb⟩
  cases vb with
  | none =>
    simp only [adaptorAddOut]
    simp [validA]
  | some i =>
    cases va with
    | none =>
      simp only [adaptorAddOut, adaptorOutEdges]
      simp
    | some j =>
      simp only [adaptorAddOut, adaptorOutEdges]
      rw [storageOut_bumpEdge]
      by_cases hcond : j = i ∧ ra = rb ∧ i < g.vertices.length
      · rw [if_pos hcond]
        obtain ⟨h1, h2, h3⟩ := hcond
        subst h1
        subst h2
        by_cases hyz : y = z
        · simp [hyz, validA, h3]
        · simp [hyz]
      · rw [if_neg hcond]
        constructor
        · exact fun h => Or.inl h
        · rintro (h | ⟨hab, hyz, hv⟩)
          · exact h
          · exfalso
            apply hcond
            have h1 : j = i := by
              have := congrArg (fun w => w.vid) hab
              simpa using this
            have h2 : ra = rb := by
              have := congrArg (fun w => w.isReverse) hab
              simpa using this
            have h3 : i < g.vertices.length := by
              simpa [validA] using hv
            exact ⟨h1, h2, h3⟩

theorem storageOut_out_of_range (g : ContigGraph) (j : Nat) (p : Bool)
    (h : g.vertices.length ≤ j) : storageOut g j p = fun _ => false := by
  unfold storageOut getVertex
  rw [List.getD_eq_getElem?_getD, List.getElem?_eq_none h]
  cases p <;> rfl

theorem adaptorOutEdges_removeOut (g : ContigGraph) (b : ContigGraphVertexAdaptor) (z : Base)
    (a : ContigGraphVertexAdaptor) (y : Fin 4) :
    adaptorOutEdges (adaptorRemoveOut g b z) a y = true ↔
      (adaptorOutEdges g a y = true ∧ ¬(a = b ∧ y = z)) := by
  rcases a with ⟨va, ra⟩
  rcases b with ⟨vb, rb⟩
  cases vb with
  | none =>
    simp only [adaptorRemoveOut]
    cases va with
    | none => simp [adaptorOutEdges]
    | some j => simp [adaptorOutEdges]
  | some i =>
    cases va with
    | none =>
      simp only [adaptorRemoveOut, adaptorOutEdges]
      simp
    | some j =>
      simp only [adaptorRemoveOut, adaptorOutEdges]
      rw [storageOut_bumpEdge]
      by_cases hcond : j = i ∧ ra = rb ∧ i < g.vertices.length
      · rw [if_pos hcond]
        obtain ⟨h1, h2, h3⟩ := hcond
        subst h1
        subst h2
        by_cases hyz : y = z
        · simp [hyz]
        · simp [hyz]
      · rw [if_neg hcond]
        constructor
        · intro h
          refine ⟨h, ?_⟩
          rintro ⟨hab, hyz⟩
          apply hcond
          have h1 : j = i := by
            have := congrArg (fun w => w.vid) hab
            simpa using this
          have h2 : ra = rb := by
            have := congrArg (fun w => w.isReverse) hab
            simpa using this
          refine ⟨h1, h2, ?_⟩
          subst h1
          subst h2
          by_contra hge
          rw [storageOut_out_of_range g j ra (by omega)] at h
          exact Bool.false_ne_true h
        · exact fun h => h.1

theorem adaptorOutEdges_AddEdge (g : ContigGraph) (frm dst : ContigGraphVertexAdaptor)
    (a : ContigGraphVertexAdaptor) (y : Fin 4) :
    adaptorOutEdges (AddEdge g frm dst) a y = true ↔
      (adaptorOutEdges g a y = true
        ∨ (a = frm ∧ y = addBit1 g dst ∧ validA g frm = true)
        ∨ (a = flipAdaptor dst ∧ y = addBit2 g frm ∧ validA g dst = true)) := by
  have hE : EdgesOnlyUpdate g (adaptorAddOut g frm (addBit1 g dst)) :=
    edgesOnly_adaptorAddOut g frm (addBit1 g dst)
  show adaptorOutEdges
      (adaptorAddOut (adaptorAddOut g frm (addBit1 g dst)) (flipAdaptor dst)
        ((adaptorContig (adaptorAddOut g frm (addBit1 g dst)) (flipAdaptor frm)).getD
          ((adaptorAddOut g frm (addBit1 g dst)).kmerSize - 1) 0)) a y = true ↔ _
  rw [adaptorContig_eq hE, hE.1]
  rw [adaptorOutEdges_addOut]
  rw [adaptorOutEdges_addOut]
  rw [validA_eq hE, validA_flip]
  show _ ↔ _ ∨ _ ∨ (a = flipAdaptor dst ∧ y = addBit2 g frm ∧ validA g dst = true)
  unfold addBit2
  tauto

theorem adaptorOutEdges_RemoveEdge (g : ContigGraph) (cur : ContigGraphVertexAdaptor) (x : Base)
    (a : ContigGraphVertexAdaptor) (y : Fin 4) :
    adaptorOutEdges (RemoveEdge g cur x) a y = true ↔
      (adaptorOutEdges g a y = true ∧ ¬(a = cur ∧ y = x)
        ∧ ¬(a = flipAdaptor (GetNeighbor g cur x) ∧ y = removeMirrorBit g cur)) := by
  have hE : EdgesOnlyUpdate g (adaptorRemoveOut g cur x) := edgesOnly_adaptorRemoveOut g cur x
  show adaptorOutEdges
      (adaptorRemoveOut (adaptorRemoveOut g cur x)
        (flipAdaptor (GetNeighbor (adaptorRemoveOut g cur x) cur x))
        (Base.comp ((adaptorContig (adaptorRemoveOut g cur x) cur).getD 0 0))) a y = true ↔ _
  rw [adaptorContig_eq hE, getNeighbor_eq hE]
  rw [adaptorOutEdges_removeOut]
  rw [adaptorOutEdges_removeOut]
  unfold removeMirrorBit
  tauto

theorem mapFind_lt {g : ContigGraph} {key : List Base} {i : Nat} (hw : mapWF g)
    (h : mapFind g.beginKmerMap key = some i) : i < g.vertices.length := by
  unfold mapFind at h
  cases hfind : g.beginKmerMap.find? fun p => decide (p.1 = key) with
  | none => rw [hfind] at h; simp at h
  | some p =>
    rw [hfind] at h
    simp at h
    have hmem := List.mem_of_find?_eq_some hfind
    have := hw p hmem
    omega

theorem find_spec (g : ContigGraph) (q : List Base)
    (h : (FindVertexAdaptorByBeginIdbaKmer g q).isNull = false) :
    beginKmerOf g (FindVertexAdaptorByBeginIdbaKmer g q) = q ∧
      ∃ i, mapFind g.beginKmerMap (uniqueFormat q) = some i ∧
        (FindVertexAdaptorByBeginIdbaKmer g q).vid = some i := by
  cases hm : mapFind g.beginKmerMap (uniqueFormat q) with
  | none =>
    have hnull : FindVertexAdaptorByBeginIdbaKmer g q = nullAdaptor := by
      unfold FindVertexAdaptorByBeginIdbaKmer
      rw [hm]
    rw [hnull] at h
    exact absurd h (by decide)
  | some i =>
    have hred : FindVertexAdaptorByBeginIdbaKmer g q =
        (if beginKmerOf g ⟨some i, false⟩ = q then ⟨some i, false⟩
         else if beginKmerOf g ⟨some i, true⟩ = q then (⟨some i, true⟩ : ContigGraphVertexAdaptor)
         else nullAdaptor) := by
      unfold FindVertexAdaptorByBeginIdbaKmer
      rw [hm]
    rw [hred] at h ⊢
    by_cases h1 : beginKmerOf g ⟨some i, false⟩ = q
    · rw [if_pos h1]
      exact ⟨h1, i, rfl, rfl⟩
    · rw [if_neg h1] at h ⊢
      by_cases h2 : beginKmerOf g ⟨some i, true⟩ = q
      · rw [if_pos h2]
        exact ⟨h2, i, rfl, rfl⟩
      · rw [if_neg h2] at h
        exact absurd h (by decide)

theorem find_validA (g : ContigGraph) (q : List Base) (hw : mapWF g)
    (h : (FindVertexAdaptorByBeginIdbaKmer g q).isNull = false) :
    validA g (FindVertexAdaptorByBeginIdbaKmer g q) = true := by
  obtain ⟨-, i, hm, hv⟩ := find_spec g q h
  have hi := mapFind_lt hw hm
  unfold validA
  rw [hv]
  simpa using hi

theorem getNeighbor_begin (g : ContigGraph) (c : ContigGraphVertexAdaptor) (x : Base)
    (h : (GetNeighbor g c x).isNull = false) :
    beginKmerOf g (GetNeighbor g c x) = shiftAppend (endKmerOf g c) x :=
  (find_spec g (shiftAppend (endKmerOf g c) x) h).1

theorem getNeighbor_validA (g : ContigGraph) (c : ContigGraphVertexAdaptor) (x : Base)
    (hw : mapWF g) (h : (GetNeighbor g c x).isNull = false) :
    validA g (GetNeighbor g c x) = true :=
  find_validA g (shiftAppend (endKmerOf g c) x) hw h

theorem mem_allAdaptors (g : ContigGraph) (a : ContigGraphVertexAdaptor) :
    a ∈ allAdaptors g ↔ validA g a = true := by
  rcases a with ⟨v, r⟩
  unfold allAdaptors
  rw [List.mem_flatMap]
  cases v with
  | none =>
    simp [validA]
  | some j =>
    constructor
    · rintro ⟨i, hi, hmem⟩
      rw [List.mem_range] at hi
      simp only [List.mem_cons, List.mem_singleton] at hmem
      rcases hmem with h | h | h
      · cases h; simpa [validA] using hi
      · cases h; simpa [validA] using hi
      · simp at h
    · intro hv
      have hj : j < g.vertices.length := by simpa [validA] using hv
      refine ⟨j, List.mem_range.mpr hj, ?_⟩
      cases r <;> simp

theorem adaptorContig_flip (g : ContigGraph) (a : ContigGraphVertexAdaptor) :
    adaptorContig g (flipAdaptor a) = revComp (adaptorContig g a) := by
  rcases a with ⟨v, r⟩
  cases v with
  | none => simp [adaptorContig, flipAdaptor, revComp]
  | some i =>
    cases r with
    | false => rfl
    | true =>
      show (getVertex g i).contig = revComp (revComp (getVertex g i).contig)
      rw [revComp_revComp]

theorem contigLen_of_valid (g : ContigGraph) (a : ContigGraphVertexAdaptor)
    (hv : validA g a = true) (hlen : lengthsOK g) :
    g.kmerSize ≤ (adaptorContig g a).length := by
  rcases a with ⟨v, r⟩
  cases v with
  | none => simp [validA] at hv
  | some i =>
    have hi : i < g.vertices.length := by simpa [validA] using hv
    have hmem : getVertex g i ∈ g.vertices := by
      unfold getVertex
      rw [List.getD_eq_getElem?_getD, List.getElem?_eq_getElem hi]
      exact List.getElem_mem hi
    have hk := hlen _ hmem
    cases r with
    | false => simpa [adaptorContig] using hk
    | true => simpa [adaptorContig, length_revComp] using hk

theorem endKmer_length (g : ContigGraph) (a : ContigGraphVertexAdaptor)
    (h : g.kmerSize ≤ (adaptorContig g a).length) :
    (endKmerOf g a).length = g.kmerSize := by
  unfold endKmerOf
  rw [List.length_drop]
  omega

theorem beginKmer_flip (g : ContigGraph) (a : ContigGraphVertexAdaptor)
    (h : g.kmerSize ≤ (adaptorContig g a).length) :
    beginKmerOf g (flipAdaptor a) = revComp (endKmerOf g a) := by
  unfold beginKmerOf endKmerOf
  rw [adaptorContig_flip]
  exact take_revComp _ _ h

theorem endKmer_flip (g : ContigGraph) (a : ContigGraphVertexAdaptor) :
    endKmerOf g (flipAdaptor a) = revComp (beginKmerOf g a) := by
  unfold endKmerOf beginKmerOf
  rw [adaptorContig_flip, length_revComp]
  exact drop_revComp _ _

theorem endKmer_head_getD (g : ContigGraph) (a : ContigGraphVertexAdaptor) (d : Base) :
    (endKmerOf g a).getD 0 d =
      (adaptorContig g a).getD ((adaptorContig g a).length - g.kmerSize) d := by
  unfold endKmerOf
  rw [List.getD_eq_getElem?_getD, List.getD_eq_getElem?_getD, List.getElem?_drop]
  simp

theorem mirrorBit_eq_comp_head (g : ContigGraph) (a : ContigGraphVertexAdaptor) :
    mirrorBitOf g a = Base.comp ((endKmerOf g a).getD 0 0) := by
  unfold mirrorBitOf
  rw [endKmer_head_getD]

theorem addBit2_eq_mirrorBit (g : ContigGraph) (frm : ContigGraphVertexAdaptor)
    (hk : 1 ≤ g.kmerSize) (h : g.kmerSize ≤ (adaptorContig g frm).length) :
    addBit2 g frm = mirrorBitOf g frm := by
  unfold addBit2 mirrorBitOf
  rw [adaptorContig_flip]
  rw [getD_revComp _ _ (by omega) _ 0]
  congr 2
  omega

theorem mirrorBit_flip_eq_addBit1 (g : ContigGraph) (dst : ContigGraphVertexAdaptor)
    (hk : 1 ≤ g.kmerSize) (h : g.kmerSize ≤ (adaptorContig g dst).length) :
    mirrorBitOf g (flipAdaptor dst) = addBit1 g dst := by
  unfold mirrorBitOf addBit1
  rw [adaptorContig_flip, length_revComp]
  rw [getD_revComp _ _ (by omega) _ 0]
  rw [Base.comp_comp]
  congr 1
  omega

theorem addEdge_keeps_strandSymmetric (g : ContigGraph) (frm dst : ContigGraphVertexAdaptor)
    (hk : 1 ≤ g.kmerSize) (hlen : lengthsOK g)
    (hvf : validA g frm = true) (hvd : validA g dst = true)
    (hsym : StrandSymmetric g)
    (h1 : GetNeighbor g frm (addBit1 g dst) = dst)
    (h2 : GetNeighbor g (flipAdaptor dst) (addBit2 g frm) = flipAdaptor frm) :
    StrandSymmetric (AddEdge g frm dst) := by
  have hE : EdgesOnlyUpdate g (AddEdge g frm dst) := edgesOnly_AddEdge g frm dst
  unfold StrandSymmetric at hsym ⊢
  intro a ha y hbit hnn
  rw [allAdaptors_eq hE] at ha
  rw [getNeighbor_eq hE] at hnn ⊢
  rw [mirrorBitOf_eq hE]
  rw [adaptorInEdges_eq_flip]
  rw [adaptorOutEdges_AddEdge]
  rw [adaptorOutEdges_AddEdge] at hbit
  rcases hbit with hold | ⟨haf, hay, _⟩ | ⟨haf, hay, _⟩
  · left
    have hmm := hsym a ha y hold hnn
    rwa [adaptorInEdges_eq_flip] at hmm
  · right; right
    rw [haf, hay, h1]
    exact ⟨rfl, (addBit2_eq_mirrorBit g frm hk (contigLen_of_valid g frm hvf hlen)).symm, hvd⟩
  · right; left
    rw [haf, hay, h2, flip_flip]
    exact ⟨rfl, mirrorBit_flip_eq_addBit1 g dst hk (contigLen_of_valid g dst hvd hlen), hvf⟩

theorem removeEdge_keeps_strandSymmetric (g : ContigGraph) (cur : ContigGraphVertexAdaptor)
    (x : Base)
    (hk : 1 ≤ g.kmerSize) (hlen : lengthsOK g) (hmap : mapWF g) (hinj : endInjective g)
    (hvc : validA g cur = true) (hsym : StrandSymmetric g)
    (hnn : (GetNeighbor g cur x).isNull = false)
    (h3 : (adaptorContig g cur).getD 0 0 =
      (adaptorContig g cur).getD ((adaptorContig g cur).length - g.kmerSize) 0) :
    StrandSymmetric (RemoveEdge g cur x) := by
  have hE : EdgesOnlyUpdate g (RemoveEdge g cur x) := edgesOnly_RemoveEdge g cur x
  have hkc : g.kmerSize ≤ (adaptorContig g cur).length := contigLen_of_valid g cur hvc hlen
  have hEl : (endKmerOf g cur).length = g.kmerSize := endKmer_length g cur hkc
  have hnv : validA g (GetNeighbor g cur x) = true := getNeighbor_validA g cur x hmap hnn
  have hnb : beginKmerOf g (GetNeighbor g cur x) = shiftAppend (endKmerOf g cur) x :=
    getNeighbor_begin g cur x hnn
  unfold shiftAppend at hnb
  unfold StrandSymmetric at hsym ⊢
  unfold endInjective at hinj
  intro a ha y hbit hnn2
  rw [allAdaptors_eq hE] at ha
  rw [getNeighbor_eq hE] at hnn2 ⊢
  rw [mirrorBitOf_eq hE, adaptorInEdges_eq_flip, adaptorOutEdges_RemoveEdge]
  rw [adaptorOutEdges_RemoveEdge] at hbit
  obtain ⟨hold, hs1, hs2⟩ := hbit
  have hva : validA g a = true := (mem_allAdaptors g a).mp ha
  have hka : g.kmerSize ≤ (adaptorContig g a).length := contigLen_of_valid g a hva hlen
  have hAl : (endKmerOf g a).length = g.kmerSize := endKmer_length g a hka
  have hmirror : adaptorOutEdges g (flipAdaptor (GetNeighbor g a y)) (mirrorBitOf g a) = true := by
    have hmm := hsym a ha y hold hnn2
    rwa [adaptorInEdges_eq_flip] at hmm
  have hmb : beginKmerOf g (GetNeighbor g a y) = shiftAppend (endKmerOf g a) y :=
    getNeighbor_begin g a y hnn2
  unfold shiftAppend at hmb
  refine ⟨hmirror, ?_, ?_⟩
  · rintro ⟨hc1, hc2⟩
    apply hs2
    have hmflip : GetNeighbor g a y = flipAdaptor cur := by rw [← hc1, flip_flip]
    have hbf : beginKmerOf g (flipAdaptor cur) = revComp (endKmerOf g cur) :=
      beginKmer_flip g cur hkc
    rw [hmflip] at hmb
    rw [hbf] at hmb
    have hhead : (endKmerOf g a).getD 0 0 = Base.comp x := by
      rw [mirrorBit_eq_comp_head] at hc2
      have hcc := congrArg Base.comp hc2
      rwa [Base.comp_comp] at hcc
    have hEcons : endKmerOf g cur = (endKmerOf g cur).getD 0 0 :: (endKmerOf g cur).drop 1 :=
      cons_getD_drop hEl hk 0
    have hrE : revComp (endKmerOf g cur) =
        revComp ((endKmerOf g cur).drop 1) ++ [Base.comp ((endKmerOf g cur).getD 0 0)] := by
      conv_lhs => rw [hEcons]
      exact revComp_cons _ _
    have hsplit := append_singleton_inj (hmb.symm.trans hrE)
    have hnextEnd : endKmerOf g (flipAdaptor (GetNeighbor g cur x)) =
        Base.comp x :: revComp ((endKmerOf g cur).drop 1) := by
      rw [endKmer_flip, hnb, revComp_append_last]
    have haEnd : endKmerOf g a = Base.comp x :: revComp ((endKmerOf g cur).drop 1) := by
      have hAcons : endKmerOf g a = (endKmerOf g a).getD 0 0 :: (endKmerOf g a).drop 1 :=
        cons_getD_drop hAl hk 0
      rw [hAcons, hhead, hsplit.1]
    have hmemflip : flipAdaptor (GetNeighbor g cur x) ∈ allAdaptors g := by
      rw [mem_allAdaptors, validA_flip]
      exact hnv
    have haeq : a = flipAdaptor (GetNeighbor g cur x) :=
      hinj a ha _ hmemflip (haEnd.trans hnextEnd.symm)
    have hyeq : y = removeMirrorBit g cur := by
      rw [hsplit.2]
      unfold removeMirrorBit
      rw [endKmer_head_getD]
      rw [← h3]
    exact ⟨haeq, hyeq⟩
  · rintro ⟨hc1, hc2⟩
    apply hs1
    have hmeq : GetNeighbor g a y = GetNeighbor g cur x := by
      have hff := congrArg flipAdaptor hc1
      rwa [flip_flip, flip_flip] at hff
    rw [hmeq] at hmb
    have hq := append_singleton_inj (hmb.symm.trans hnb)
    have hhead2 : (endKmerOf g a).getD 0 0 = (endKmerOf g cur).getD 0 0 := by
      rw [mirrorBit_eq_comp_head] at hc2
      unfold removeMirrorBit at hc2
      rw [h3] at hc2
      rw [← endKmer_head_getD g cur 0] at hc2
      have hcc := congrArg Base.comp hc2
      rwa [Base.comp_comp, Base.comp_comp] at hcc
    have haE : endKmerOf g a = endKmerOf g cur := by
      have hAcons : endKmerOf g a = (endKmerOf g a).getD 0 0 :: (endKmerOf g a).drop 1 :=
        cons_getD_drop hAl hk 0
      have hEcons : endKmerOf g cur = (endKmerOf g cur).getD 0 0 :: (endKmerOf g cur).drop 1 :=
        cons_getD_drop hEl hk 0
      rw [hAcons, hEcons, hhead2, hq.1]
    have haeq : a = cur := hinj a ha cur ((mem_allAdaptors g cur).mpr hvc) haE
    exact ⟨haeq, hq.2⟩

/-- C1, counterexample: the graph `exG1` (vertices ACAA, AAC, AAA with the two
real edges recorded by `AddEdge`) satisfies the strand-symmetry invariant, but
`RemoveEdge` on the edge leaving the length-4 contig ACAA clears in-edge bit
`3 - contig[0]` on the neighbor instead of the recorded mirror bit
`3 - contig[length - k]`, and the invariant fails afterwards. -/
theorem c1_counterexample :
    StrandSymmetric exG1 ∧ ¬ StrandSymmetric (RemoveEdge exG1 (aF 0) 1) := by
  constructor
  · decide
  · decide

/-- C1, amended: `AddEdge` preserves the strand-symmetry invariant whenever
the recorded edge resolves to its destination in both orientations, and
`RemoveEdge` preserves it when, additionally, the index is well-formed, end
k-mers are unambiguous, the neighbor resolves, and the source's first base
equals its base at position length - k (as is always the case for contigs of
length exactly k); with a longer source whose two bases differ the invariant
can fail, as the counterexample shows. -/
theorem c1_amended :
    (∀ g frm dst, 1 ≤ g.kmerSize → lengthsOK g →
      validA g frm = true → validA g dst = true → StrandSymmetric g →
      GetNeighbor g frm (addBit1 g dst) = dst →
      GetNeighbor g (flipAdaptor dst) (addBit2 g frm) = flipAdaptor frm →
      StrandSymmetric (AddEdge g frm dst)) ∧
    (∀ g cur x, 1 ≤ g.kmerSize → lengthsOK g → mapWF g → endInjective g →
      validA g cur = true → StrandSymmetric g →
      (GetNeighbor g cur x).isNull = false →
      (adaptorContig g cur).getD 0 0 =
        (adaptorContig g cur).getD ((adaptorContig g cur).length - g.kmerSize) 0 →
      StrandSymmetric (RemoveEdge g cur x)) :=
  ⟨fun g frm dst hk hlen hvf hvd hsym h1 h2 =>
      addEdge_keeps_strandSymmetric g frm dst hk hlen hvf hvd hsym h1 h2,
   fun g cur x hk hlen hmap hinj hvc hsym hnn h3 =>
      removeEdge_keeps_strandSymmetric g cur x hk hlen hmap hinj hvc hsym hnn h3⟩

/-- C1, witness: on the concrete graph `gW` (all contigs of length exactly k)
both halves of the amended claim apply and the invariant indeed survives an
`AddEdge` and a `RemoveEdge`. -/
theorem c1_amended_witness :
    StrandSymmetric (AddEdge gW (aF 0) (aF 1)) ∧ StrandSymmetric (RemoveEdge gW (aF 0) 2) :=
  ⟨c1_amended.1 gW (aF 0) (aF 1) (by decide) (by decide) (by decide) (by decide)
      (by decide) (by decide) (by decide),
   c1_amended.2 gW (aF 0) 2 (by decide) (by decide) (by decide) (by decide)
      (by decide) (by decide) (by decide) (by decide)⟩

/-- C2, counterexample: at k = 2, with `dst`'s contig ACG (its last base G),
`AddEdge` does not set the out-edge bit for the base at `dst`'s last position;
it sets the bit for the base at position k-1 (C) instead. -/
theorem c2_counterexample :
    adaptorOutEdges (AddEdge gC2 (aF 0) (aF 1)) (aF 0)
        ((adaptorContig gC2 (aF 1)).getD (adaptorContigSize gC2 (aF 1) - 1) 0) = false ∧
      adaptorOutEdges (AddEdge gC2 (aF 0) (aF 1)) (aF 0)
        ((adaptorContig gC2 (aF 1)).getD (gC2.kmerSize - 1) 0) = true := by
  constructor
  · decide
  · decide

/-- C2, amended: for valid adaptors, `AddEdge g frm dst` sets exactly two
oriented edge bits: on `frm` the bit for the base at position k-1 of `dst`'s
contig, and on the flipped `dst` the bit for the base at position k-1 of the
flipped `frm`'s contig; every other edge bit of every vertex is unchanged. -/
theorem c2_amended : ∀ g frm dst, validA g frm = true → validA g dst = true →
    ∀ a y, adaptorOutEdges (AddEdge g frm dst) a y = true ↔
      (adaptorOutEdges g a y = true ∨ (a = frm ∧ y = addBit1 g dst)
        ∨ (a = flipAdaptor dst ∧ y = addBit2 g frm)) := by
  intro g frm dst hvf hvd a y
  rw [adaptorOutEdges_AddEdge]
  simp [hvf, hvd]

/-- C2, witness: the amended characterization applied on the concrete graph
`gC2` at the bit the code actually sets. -/
theorem c2_amended_witness :
    adaptorOutEdges (AddEdge gC2 (aF 0) (aF 1)) (aF 0) 1 = true ↔
      (adaptorOutEdges gC2 (aF 0) 1 = true ∨ ((aF 0 : ContigGraphVertexAdaptor) = aF 0 ∧ (1 : Fin 4) = addBit1 gC2 (aF 1))
        ∨ (aF 0 = flipAdaptor (aF 1) ∧ (1 : Fin 4) = addBit2 gC2 (aF 0))) :=
  c2_amended gC2 (aF 0) (aF 1) (by decide) (by decide) (aF 0) 1

/-- C3: `RemoveEdge(current, x)` clears out-edge bit x on `current` and, on
the located neighbor viewed flipped, the out-edge bit for base
`3 - current.contig()[0]`; all other edge bits of all vertices are left
unchanged. -/
theorem c3_theorem : ∀ g cur x, validA g cur = true → (GetNeighbor g cur x).isNull = false →
    ∀ a y, adaptorOutEdges (RemoveEdge g cur x) a y = true ↔
      (adaptorOutEdges g a y = true ∧ ¬(a = cur ∧ y = x)
        ∧ ¬(a = flipAdaptor (GetNeighbor g cur x) ∧ y = removeMirrorBit g cur)) := by
  intro g cur x hv hnn a y
  exact adaptorOutEdges_RemoveEdge g cur x a y

/-- C3, witness: the characterization applied on the concrete graph `gW` at
the removed bit itself. -/
theorem c3_witness :
    adaptorOutEdges (RemoveEdge gW (aF 0) 2) (aF 0) 2 = true ↔
      (adaptorOutEdges gW (aF 0) 2 = true ∧ ¬((aF 0 : ContigGraphVertexAdaptor) = aF 0 ∧ (2 : Fin 4) = 2)
        ∧ ¬(aF 0 = flipAdaptor (GetNeighbor gW (aF 0) 2) ∧ (2 : Fin 4) = removeMirrorBit gW (aF 0))) :=
  c3_theorem gW (aF 0) 2 (by decide) (by decide) (aF 0) 2

/-- C9: `RemoveEdge` dereferences `GetNeighbor`'s result unconditionally, but
under the precondition that the shift-appended end k-mer resolves through the
begin-k-mer index, that result is non-null and names an in-range vertex, so
the null branch is unreachable. -/
theorem c9_theorem : ∀ g cur x, mapWF g →
    (FindVertexAdaptorByBeginIdbaKmer g (shiftAppend (endKmerOf g cur) x)).isNull = false →
    (GetNeighbor g cur x).isNull = false ∧ validA g (GetNeighbor g cur x) = true := by
  intro g cur x hw h
  exact ⟨h, getNeighbor_validA g cur x hw h⟩

/-- C9, witness: the precondition holds on `gW` for the recorded edge and the
dereferenced neighbor is live. -/
theorem c9_witness :
    (GetNeighbor gW (aF 0) 2).isNull = false ∧ validA gW (GetNeighbor gW (aF 0) 2) = true :=
  c9_theorem gW (aF 0) 2 (by decide) (by decide)

theorem numEdges_adaptorAddOut (g : ContigGraph) (a : ContigGraphVertexAdaptor) (b : Base) :
    (adaptorAddOut g a b).numEdges = g.numEdges := by
  unfold adaptorAddOut
  cases a.vid <;> rfl

theorem numEdges_adaptorRemoveOut (g : ContigGraph) (a : ContigGraphVertexAdaptor) (b : Base) :
    (adaptorRemoveOut g a b).numEdges = g.numEdges := by
  unfold adaptorRemoveOut
  cases a.vid <;> rfl

/-- C10: `AddEdge` and `RemoveEdge` never touch the `num_edges_` counter, so
`num_edges()` returns the same value after either call as before it. -/
theorem c10_theorem : ∀ g frm dst cur x,
    (AddEdge g frm dst).numEdges = g.numEdges ∧ (RemoveEdge g cur x).numEdges = g.numEdges := by
  intro g frm dst cur x
  constructor
  · show (adaptorAddOut (adaptorAddOut g frm _) (flipAdaptor dst) _).numEdges = g.numEdges
    rw [numEdges_adaptorAddOut, numEdges_adaptorAddOut]
  · show (adaptorRemoveOut (adaptorRemoveOut g cur x) _ _).numEdges = g.numEdges
    rw [numEdges_adaptorRemoveOut, numEdges_adaptorRemoveOut]

/-- C4: `GetNeighbor` shift-appends base x to the end k-mer of `current` and
resolves it through `FindVertexAdaptorByBeginIdbaKmer`, which canonicalizes
the query, looks it up in the begin-k-mer index, returns the mapped vertex in
whichever of its two orientations has a begin k-mer equal to the non-canonical
query, and returns the null adaptor when the canonical key is absent or when
neither orientation matches. -/
theorem c4_theorem :
    (∀ g cur x, GetNeighbor g cur x =
        FindVertexAdaptorByBeginIdbaKmer g (shiftAppend (endKmerOf g cur) x)) ∧
    (∀ g q, mapFind g.beginKmerMap (uniqueFormat q) = none →
        FindVertexAdaptorByBeginIdbaKmer g q = nullAdaptor) ∧
    (∀ g q i, mapFind g.beginKmerMap (uniqueFormat q) = some i →
        beginKmerOf g ⟨some i, false⟩ ≠ q → beginKmerOf g ⟨some i, true⟩ ≠ q →
        FindVertexAdaptorByBeginIdbaKmer g q = nullAdaptor) ∧
    (∀ g q, (FindVertexAdaptorByBeginIdbaKmer g q).isNull = false →
        beginKmerOf g (FindVertexAdaptorByBeginIdbaKmer g q) = q ∧
        ∃ i, mapFind g.beginKmerMap (uniqueFormat q) = some i ∧
          (FindVertexAdaptorByBeginIdbaKmer g q).vid = some i) := by
  refine ⟨fun g cur x => rfl, ?_, ?_, fun g q h => find_spec g q h⟩
  · intro g q h
    unfold FindVertexAdaptorByBeginIdbaKmer
    rw [h]
  · intro g q i h h1 h2
    have hred : FindVertexAdaptorByBeginIdbaKmer g q =
        (if beginKmerOf g ⟨some i, false⟩ = q then ⟨some i, false⟩
         else if beginKmerOf g ⟨some i, true⟩ = q then (⟨some i, true⟩ : ContigGraphVertexAdaptor)
         else nullAdaptor) := by
      unfold FindVertexAdaptorByBeginIdbaKmer
      rw [h]
    rw [hred, if_neg h1, if_neg h2]

/-- C4, witness: on the concrete graphs a query with an absent canonical key
resolves to null, a query whose canonical key is present but matches neither
orientation resolves to null, and a resolving query returns the adaptor whose
begin k-mer equals the query. -/
theorem c4_witness :
    FindVertexAdaptorByBeginIdbaKmer gW [3, 3, 3] = nullAdaptor ∧
    FindVertexAdaptorByBeginIdbaKmer exG1 [3, 2, 3] = nullAdaptor ∧
    (beginKmerOf gW (FindVertexAdaptorByBeginIdbaKmer gW [0, 1, 2]) = [0, 1, 2] ∧
      ∃ i, mapFind gW.beginKmerMap (uniqueFormat [0, 1, 2]) = some i ∧
        (FindVertexAdaptorByBeginIdbaKmer gW [0, 1, 2]).vid = some i) :=
  ⟨c4_theorem.2.1 gW [3, 3, 3] (by decide),
   c4_theorem.2.2.1 exG1 [3, 2, 3] 0 (by decide) (by decide) (by decide),
   c4_theorem.2.2.2 gW [0, 1, 2] (by decide)⟩

theorem bitToIndex_spec : ∀ es : Fin 4 → Bool, edgeSetSize es = 1 →
    es (bitToIndex es) = true ∧ ∀ y, es y = true → y = bitToIndex es := by
  decide

/-- C5: `GetNextVertexAdaptor` returns true exactly when the out-edge set of
`current` has exactly one bit set and the neighbor reached through that unique
bit has exactly one in-edge and is not a palindromic contig of length exactly
k; whenever the out-degree is one, the out-parameter is set to that unique
neighbor, and the probed bit is the unique set bit. -/
theorem c5_theorem : ∀ g cur next0,
    ((GetNextVertexAdaptor g cur next0).1 = true ↔
      (edgeSetSize (adaptorOutEdges g cur) = 1 ∧
        edgeSetSize (adaptorInEdges g
          (GetNeighbor g cur (bitToIndex (adaptorOutEdges g cur)))) = 1 ∧
        ¬(adaptorContigSize g (GetNeighbor g cur (bitToIndex (adaptorOutEdges g cur))) =
            g.kmerSize ∧
          isPalindromeSeq (adaptorContig g
            (GetNeighbor g cur (bitToIndex (adaptorOutEdges g cur)))) = true))) ∧
    (edgeSetSize (adaptorOutEdges g cur) = 1 →
      (GetNextVertexAdaptor g cur next0).2 =
        GetNeighbor g cur (bitToIndex (adaptorOutEdges g cur)) ∧
      adaptorOutEdges g cur (bitToIndex (adaptorOutEdges g cur)) = true ∧
      ∀ y, adaptorOutEdges g cur y = true → y = bitToIndex (adaptorOutEdges g cur)) := by
  intro g cur next0
  constructor
  · unfold GetNextVertexAdaptor
    by_cases hs : edgeSetSize (adaptorOutEdges g cur) = 1
    · rw [if_neg (by simp [hs])]
      simp only [Bool.and_eq_true, decide_eq_true_eq, Bool.not_eq_true']
      constructor
      · rintro ⟨h1, h2⟩
        refine ⟨hs, h1, ?_⟩
        rintro ⟨ha, hb⟩
        simp [ha, hb] at h2
      · rintro ⟨-, h1, h2⟩
        refine ⟨h1, ?_⟩
        by_cases ha : adaptorContigSize g
            (GetNeighbor g cur (bitToIndex (adaptorOutEdges g cur))) = g.kmerSize
        · have hb : isPalindromeSeq (adaptorContig g
              (GetNeighbor g cur (bitToIndex (adaptorOutEdges g cur)))) = false := by
            by_contra hc
            exact h2 ⟨ha, by simpa using hc⟩
          simp [ha, hb]
        · simp [ha]
    · rw [if_pos hs]
      simp [hs]
  · intro hs
    unfold GetNextVertexAdaptor
    rw [if_neg (by simp [hs])]
    exact ⟨rfl, (bitToIndex_spec _ hs).1, (bitToIndex_spec _ hs).2⟩

/-- C5, witness: on `gW`, vertex AAC has out-degree one, the step succeeds and
the out-parameter is the resolved neighbor ACG. -/
theorem c5_witness :
    (GetNextVertexAdaptor gW (aF 0) nullAdaptor).1 = true ∧
    (GetNextVertexAdaptor gW (aF 0) nullAdaptor).2 =
      GetNeighbor gW (aF 0) (bitToIndex (adaptorOutEdges gW (aF 0))) :=
  ⟨(c5_theorem gW (aF 0) nullAdaptor).1.mpr (by decide),
   ((c5_theorem gW (aF 0) nullAdaptor).2 (by decide)).1⟩

/-- C7, counterexample: `IsPalindromeLoop` holds for a path ending at vertex 0
of `exG1` with `next` the opposite-strand adaptor of the same vertex, even
though that vertex (contig ACAA) is neither of length k nor self-reverse-
complementary, so the guard is not a palindrome test. -/
theorem c7_counterexample :
    IsPalindromeLoop [aF 0] (aR 0) = true ∧
      ¬(adaptorContigSize exG1 (aR 0) = exG1.kmerSize ∧
        isPalindromeSeq (adaptorContig exG1 (aR 0)) = true) := by
  constructor
  · decide
  · decide

/-- C7, amended: `IsPalindromeLoop(path, next)` holds exactly when `next`
refers to the same vertex as the last adaptor of the path (the bounce-back
guard); the test that the next vertex is a self-reverse-complementary contig
of length exactly k is performed inside `GetNextVertexAdaptor` instead, whose
success already excludes such palindromes. -/
theorem c7_amended :
    (∀ path next, IsPalindromeLoop path next = true ↔
      (path.getLastD nullAdaptor).vid = next.vid) ∧
    (∀ g cur next0, (GetNextVertexAdaptor g cur next0).1 = true →
      ¬(adaptorContigSize g (GetNextVertexAdaptor g cur next0).2 = g.kmerSize ∧
        isPalindromeSeq (adaptorContig g (GetNextVertexAdaptor g cur next0).2) = true)) := by
  constructor
  · intro path next
    simp [IsPalindromeLoop]
  · intro g cur next0 h
    unfold GetNextVertexAdaptor at h ⊢
    by_cases hs : edgeSetSize (adaptorOutEdges g cur) = 1
    · rw [if_neg (by simp [hs])] at h ⊢
      simp only [Bool.and_eq_true, Bool.not_eq_true'] at h
      rintro ⟨ha, hb⟩
      simp [ha, hb] at h
    · rw [if_pos (by simp [hs])] at h
      simp at h

/-- C7, witness: the bounce-back characterization at a concrete path, and the
palindrome exclusion at a concrete successful step on `gW`. -/
theorem c7_witness :
    (IsPalindromeLoop [aF 1] (aR 1) = true ↔
      (([aF 1] : List ContigGraphVertexAdaptor).getLastD nullAdaptor).vid = (aR 1).vid) ∧
    ¬(adaptorContigSize gW (GetNextVertexAdaptor gW (aF 0) nullAdaptor).2 = gW.kmerSize ∧
      isPalindromeSeq (adaptorContig gW (GetNextVertexAdaptor gW (aF 0) nullAdaptor).2) = true) :=
  ⟨c7_amended.1 [aF 1] (aR 1), c7_amended.2 gW (aF 0) nullAdaptor (by decide)⟩

theorem scanUniqueZero_go (sel : ContigGraphVertexAdaptor → Fin 4 → Bool) :
    ∀ (l : List ContigGraphVertexAdaptor), ∀ (acc : ContigGraphVertexAdaptor),
      (∀ a ∈ l, a.isNull = false) →
      ((acc.isNull = true →
          (∀ z, (l.filter fun b => edgeSetIsZero (sel b)) = [z] →
            scanUniqueZero sel acc l = z) ∧
          (2 ≤ (l.filter fun b => edgeSetIsZero (sel b)).length →
            scanUniqueZero sel acc l = nullAdaptor)) ∧
       (acc.isNull = false →
          ((l.filter fun b => edgeSetIsZero (sel b)) = [] → scanUniqueZero sel acc l = acc) ∧
          ((l.filter fun b => edgeSetIsZero (sel b)) ≠ [] →
            scanUniqueZero sel acc l = nullAdaptor))) := by
  intro l
  induction l with
  | nil =>
    intro acc hmem
    constructor
    · intro hacc
      constructor
      · intro z hz
        simp at hz
      · intro h2
        simp at h2
    · intro hacc
      constructor
      · intro _
        rfl
      · intro hne
        simp at hne
  | cons a rest ih =>
    intro acc hmem
    have hna : a.isNull = false := hmem a (by simp)
    have hrest : ∀ b ∈ rest, b.isNull = false := fun b hb => hmem b (by simp [hb])
    by_cases hz : edgeSetIsZero (sel a) = true
    · have hfil : ((a :: rest).filter fun b => edgeSetIsZero (sel b)) =
          a :: (rest.filter fun b => edgeSetIsZero (sel b)) := by
        simp [List.filter_cons, hz]
      constructor
      · intro hacc
        have hscan : scanUniqueZero sel acc (a :: rest) = scanUniqueZero sel a rest := by
          simp [scanUniqueZero, hz, hacc]
        constructor
        · intro z hzz
          rw [hfil] at hzz
          injection hzz with h1 h2
          rw [hscan, ← h1]
          exact ((ih a hrest).2 hna).1 h2
        · intro h2
          rw [hfil] at h2
          have hne : (rest.filter fun b => edgeSetIsZero (sel b)) ≠ [] := by
            intro hh
            rw [hh] at h2
            simp at h2
          rw [hscan]
          exact ((ih a hrest).2 hna).2 hne
      · intro hacc
        have hscan : scanUniqueZero sel acc (a :: rest) = nullAdaptor := by
          simp [scanUniqueZero, hz, hacc]
        constructor
        · intro hempty
          rw [hfil] at hempty
          simp at hempty
        · intro _
          exact hscan
    · have hzf : edgeSetIsZero (sel a) = false := by
        simpa using hz
      have hfil : ((a :: rest).filter fun b => edgeSetIsZero (sel b)) =
          rest.filter fun b => edgeSetIsZero (sel b) := by
        simp [List.filter_cons, hzf]
      have hscan : ∀ acc2, scanUniqueZero sel acc2 (a :: rest) = scanUniqueZero sel acc2 rest := by
        intro acc2
        simp [scanUniqueZero, hzf]
      simp only [hfil, hscan]
      exact ih acc hrest

/-- C8: over a component of non-null adaptors, `GetBeginVertexAdaptor`
returns the unique adaptor with an empty in-edge set when exactly one exists
and the null adaptor when there are two or more; symmetrically,
`GetEndVertexAdaptor` does the same for empty out-edge sets — ambiguous
components are rejected rather than assembled. -/
theorem c8_theorem : ∀ g comp, (∀ a ∈ comp, a.isNull = false) →
    ((∀ z, (comp.filter fun a => edgeSetIsZero (adaptorInEdges g a)) = [z] →
        GetBeginVertexAdaptor g comp = z) ∧
     (2 ≤ (comp.filter fun a => edgeSetIsZero (adaptorInEdges g a)).length →
        GetBeginVertexAdaptor g comp = nullAdaptor) ∧
     (∀ z, (comp.filter fun a => edgeSetIsZero (adaptorOutEdges g a)) = [z] →
        GetEndVertexAdaptor g comp = z) ∧
     (2 ≤ (comp.filter fun a => edgeSetIsZero (adaptorOutEdges g a)).length →
        GetEndVertexAdaptor g comp = nullAdaptor)) := by
  intro g comp h
  have hb := (scanUniqueZero_go (fun a => adaptorInEdges g a) comp nullAdaptor h).1 rfl
  have he := (scanUniqueZero_go (fun a => adaptorOutEdges g a) comp nullAdaptor h).1 rfl
  exact ⟨hb.1, hb.2, he.1, he.2⟩

/-- C8, witness: on `gW`, the chain component has the unique source AAC and
the unique sink ACG, while components listing both strands of a vertex have
two in-degree-zero (respectively out-degree-zero) adaptors and yield null. -/
theorem c8_witness :
    GetBeginVertexAdaptor gW [aF 0, aF 1] = aF 0 ∧
    GetBeginVertexAdaptor gW [aF 0, aR 1] = nullAdaptor ∧
    GetEndVertexAdaptor gW [aF 0, aF 1] = aF 1 ∧
    GetEndVertexAdaptor gW [aF 1, aR 0] = nullAdaptor :=
  ⟨(c8_theorem gW [aF 0, aF 1] (by decide)).1 (aF 0) (by decide),
   (c8_theorem gW [aF 0, aR 1] (by decide)).2.1 (by decide),
   (c8_theorem gW [aF 0, aF 1] (by decide)).2.2.1 (aF 1) (by decide),
   (c8_theorem gW [aF 1, aR 0] (by decide)).2.2.2 (by decide)⟩

theorem assemble_congr : ∀ (l l' : List ContigGraphVertex),
    l.map vertexPayload = l'.map vertexPayload →
    (l.filter fun v => !v.dead).map (fun v => (v.contig, v.info)) =
      (l'.filter fun v => !v.dead).map (fun v => (v.contig, v.info)) := by
  intro l
  induction l with
  | nil =>
    intro l' h
    cases l' with
    | nil => rfl
    | cons w t' => simp at h
  | cons v t ih =>
    intro l' h
    cases l' with
    | nil => simp at h
    | cons w t' =>
      simp only [List.map_cons, List.cons.injEq] at h
      have hc : v.contig = w.contig := congrArg (fun p => p.1) h.1
      have hi : v.info = w.info := congrArg (fun p => p.2.1) h.1
      have hd : v.dead = w.dead := congrArg (fun p => p.2.2) h.1
      simp only [List.filter_cons, hd]
      by_cases hw : (!w.dead) = true
      · rw [if_pos hw, if_pos hw]
        simp only [List.map_cons]
        rw [hc, hi, ih t' h.2]
      · rw [if_neg hw, if_neg hw]
        exact ih t' h.2

theorem foldl_payload {α : Type} (step : ContigGraph → α → ContigGraph)
    (hstep : ∀ g a, (step g a).vertices.map vertexPayload = g.vertices.map vertexPayload) :
    ∀ (l : List α) (g : ContigGraph),
      (l.foldl step g).vertices.map vertexPayload = g.vertices.map vertexPayload := by
  intro l
  induction l with
  | nil => intro g; rfl
  | cons a t ih =>
    intro g
    rw [List.foldl_cons, ih, hstep]

theorem payload_addEdgeProbe (g : ContigGraph) (a : ContigGraphVertexAdaptor) (x : Base) :
    (addEdgeProbe g a x).vertices.map vertexPayload = g.vertices.map vertexPayload := by
  unfold addEdgeProbe
  by_cases h : (GetNeighbor g a x).isNull = true
  · rw [if_pos h]
  · rw [if_neg h]
    exact (edgesOnly_AddEdge g a (GetNeighbor g a x)).2.2

theorem payload_deriveEdges (g : ContigGraph) :
    (deriveEdges g).vertices.map vertexPayload = g.vertices.map vertexPayload := by
  unfold deriveEdges
  apply foldl_payload
  intro g2 i
  apply foldl_payload
  intro g3 x
  exact payload_addEdgeProbe g3 ⟨some i, false⟩ x

theorem rel_rcEquiv_refl : ∀ (l : List (List Base)),
    Multiset.Rel rcEquiv (↑l : Multiset (List Base)) (↑l : Multiset (List Base)) := by
  intro l
  induction l with
  | nil => exact Multiset.Rel.zero
  | cons s t ih => exact Multiset.Rel.cons (show rcEquiv s s from Or.inl rfl) ih

/-- C6: Initialize on (sequence, info) pairs, each at least k bases long,
followed immediately by Assemble returns the same multiset of sequences as
the input, up to reverse-complement equivalence of each sequence (here: the
returned list is the input list itself, edge derivation never touching the
stored contigs). -/
theorem c6_theorem : ∀ (k : Nat) (contigs : List (List Base)) (contigInfos : List ContigInfo),
    contigs.length = contigInfos.length →
    (∀ s ∈ contigs, k ≤ s.length) →
    Multiset.Rel rcEquiv
      (↑((Assemble (Initialize k contigs contigInfos)).map Prod.fst) : Multiset (List Base))
      (↑contigs : Multiset (List Base)) := by
  intro k contigs contigInfos hlen hmin
  have hpay : (Initialize k contigs contigInfos).vertices.map vertexPayload =
      ((contigs.zip contigInfos).map fun p =>
        ({ contig := p.1, outEdges := fun _ => false, inEdges := fun _ => false,
           info := p.2, dead := false } : ContigGraphVertex)).map vertexPayload := by
    unfold Initialize
    exact payload_deriveEdges _
  have hvs : ∀ v ∈ (contigs.zip contigInfos).map (fun p =>
      ({ contig := p.1, outEdges := fun _ => false, inEdges := fun _ => false,
         info := p.2, dead := false } : ContigGraphVertex)), (!v.dead) = true := by
    intro v hv
    obtain ⟨p, hp, rfl⟩ := List.mem_map.mp hv
    rfl
  have hassemble : Assemble (Initialize k contigs contigInfos) = contigs.zip contigInfos := by
    unfold Assemble
    rw [assemble_congr _ _ hpay, List.filter_eq_self.mpr hvs, List.map_map]
    have hid : ((fun v : ContigGraphVertex => (v.contig, v.info)) ∘ fun p : List Base × ContigInfo =>
        ({ contig := p.1, outEdges := fun _ => false, inEdges := fun _ => false,
           info := p.2, dead := false } : ContigGraphVertex)) = id := by
      funext p
      rfl
    rw [hid, List.map_id]
  have hfst : (Assemble (Initialize k contigs contigInfos)).map Prod.fst = contigs := by
    rw [hassemble]
    exact List.map_fst_zip _ _ (le_of_eq hlen)
  rw [hfst]
  exact rel_rcEquiv_refl contigs

/-- C6, witness: the spec scenario k = 3, contigs AAAT, AATC, TCGG
round-trips unchanged. -/
theorem c6_witness :
    Multiset.Rel rcEquiv
      (↑((Assemble (Initialize 3 [[0, 0, 0, 3], [0, 0, 3, 1], [3, 1, 2, 2]]
          [⟨1⟩, ⟨1⟩, ⟨1⟩])).map Prod.fst) : Multiset (List Base))
      (↑([[0, 0, 0, 3], [0, 0, 3, 1], [3, 1, 2, 2]] : List (List Base))) :=
  c6_theorem 3 [[0, 0, 0, 3], [0, 0, 3, 1], [3, 1, 2, 2]] [⟨1⟩, ⟨1⟩, ⟨1⟩]
    (by decide) (by decide)
